import Mathlib

/-!
Verification of the asset-cache-and-streaming-downloader core of the
kitten-tts-web repository (`src/utils/modelCache.ts`) against its
natural-language specification.

The IndexedDB-backed store is embedded as an explicit list of records,
asynchronous failure (a rejected request) as `Except Unit`, and the
environment (which store requests succeed, what the network delivers)
as explicit records.  A crucial point of the embedding is faithfulness
to the JavaScript `async`/`try` semantics of the source: a promise that
is returned from inside a `try` block *without* `await` escapes the
`catch` handler, so a rejecting IndexedDB request propagates out of
`getCachedModel`, `cacheModel` and `getCacheInfo` even though the
function body is wrapped in `try`/`catch`.  Only a rejection of the
awaited `openDB()` call is caught there.
-/

namespace ModelCache

/-- A byte buffer, one `Nat` per byte. -/
abbrev Bytes := List Nat

/-- The `CachedModel` record persisted in the `models` object store
(`url` is the key; `size` is set at `put` time to `data.byteLength`). -/
structure CachedModel where
  url : String
  data : Bytes
  timestamp : Nat
  size : Nat
deriving Repr, DecidableEq

/-- The `CacheInfo` projection (`url`, `timestamp`, `size`, never the bytes). -/
structure CacheInfo where
  url : String
  timestamp : Nat
  size : Nat
deriving Repr, DecidableEq

/-- The contents of the IndexedDB object store: a list of records with
at most one record per `url` maintained by the upsert/delete operations. -/
abbrev StoreState := List CachedModel

/-- Key lookup in the object store (`store.get(url)`). -/
def lookupModel (s : StoreState) (url : String) : Option CachedModel :=
  s.find? (fun m => m.url == url)

/-- Which storage operations succeed in the current environment:
`openOk` — `indexedDB.open` succeeds; `readOk` — `get`/`getAll`
requests succeed; `putOk` — `put` requests succeed; `deleteOk` /
`clearOk` — `delete` / `clear` requests succeed. -/
structure StorageEnv where
  openOk : Bool
  readOk : Bool
  putOk : Bool
  deleteOk : Bool
  clearOk : Bool
deriving Repr, DecidableEq

/-- `getCachedModel(url)`.  `await openDB()` rejecting is caught by the
`catch` and mapped to `null`; but the promise wrapping the `get` request
is returned without `await`, so its rejection escapes the `try`/`catch`
and the caller sees a rejection (`Except.error`). -/
def getCachedModel (env : StorageEnv) (s : StoreState) (url : String) :
    Except Unit (Option Bytes) :=
  if env.openOk then
    if env.readOk then
      Except.ok ((lookupModel s url).map (fun m => m.data))
    else
      Except.error ()
  else
    Except.ok none

/-- The record list after `store.put` with keyPath `url`: the put
replaces any record with the same key (upsert). -/
def upsert (s : StoreState) (url : String) (data : Bytes) (now : Nat) : StoreState :=
  s.filter (fun m => m.url != url) ++ [⟨url, data, now, data.length⟩]

/-- `cacheModel(url, data)`: builds the record with `timestamp = Date.now()`
and `size = data.byteLength` and `put`s it.  An `openDB` rejection is
caught and re-thrown; a `put`-request rejection escapes the `try`/`catch`
(promise returned without `await`); either way the caller sees a rejection. -/
def cacheModel (env : StorageEnv) (s : StoreState) (url : String)
    (data : Bytes) (now : Nat) : Except Unit StoreState :=
  if env.openOk then
    if env.putOk then
      Except.ok (upsert s url data now)
    else
      Except.error ()
  else
    Except.error ()

/-- `isModelCached(url)`: awaits `getCachedModel` inside `try`, so every
rejection is caught and mapped to `false`; otherwise `data !== null`. -/
def isModelCached (env : StorageEnv) (s : StoreState) (url : String) : Bool :=
  match getCachedModel env s url with
  | Except.ok (some _) => true
  | _ => false

/-- `getCacheInfo()`: an `openDB` rejection is caught and mapped to `[]`;
a `getAll`-request rejection escapes (promise returned without `await`);
on success, maps each record to its metadata projection. -/
def getCacheInfo (env : StorageEnv) (s : StoreState) :
    Except Unit (List CacheInfo) :=
  if env.openOk then
    if env.readOk then
      Except.ok (s.map (fun m => ⟨m.url, m.timestamp, m.size⟩))
    else
      Except.error ()
  else
    Except.ok []

/-- `clearCachedModel(url)`: deletes the record with the given key;
failures propagate (caught-and-rethrown or escaping rejection). -/
def clearCachedModel (env : StorageEnv) (s : StoreState) (url : String) :
    Except Unit StoreState :=
  if env.openOk then
    if env.deleteOk then
      Except.ok (s.filter (fun m => m.url != url))
    else
      Except.error ()
  else
    Except.error ()

/-- `clearAllCache()`: clears the store regardless of its contents;
failures propagate. -/
def clearAllCache (env : StorageEnv) (_s : StoreState) : Except Unit StoreState :=
  if env.openOk then
    if env.clearOk then
      Except.ok []
    else
      Except.error ()
  else
    Except.error ()

/-- `getCacheSize()`: `getCacheInfo().reduce((total, info) => total + info.size, 0)`,
with any awaited rejection caught and mapped to `0`. -/
def getCacheSize (env : StorageEnv) (s : StoreState) : Nat :=
  match getCacheInfo env s with
  | Except.ok infos => infos.foldl (fun total info => total + info.size) 0
  | Except.error _ => 0

/-- `formatBytes` exponent: `Math.floor(Math.log(bytes) / Math.log(1024))`,
embedded exactly as the base-1024 integer logarithm. -/
def formatBytesIndex (bytes : Nat) : Nat := Nat.log 1024 bytes

/-- The `sizes` array of `formatBytes`. -/
def byteSizes : List String := ["Bytes", "KB", "MB", "GB"]

/-- The value `formatBytes` renders: a number and a unit.  JavaScript
concatenates `parseFloat((bytes / 1024 ** i).toFixed(2))` with `sizes[i]`;
we keep the two parts separate, the number as an exact rational. -/
structure FormattedSize where
  mantissa : ℚ
  unit : String
deriving Repr, DecidableEq

/-- `formatBytes(bytes)`.  `toFixed(2)` followed by `parseFloat` is
embedded as rounding to the nearest hundredth (exact arithmetic in ℚ in
place of double precision).  Indexing `sizes[i]` past the end yields
JavaScript `undefined`, which string concatenation renders as the unit
string `"undefined"`; `List.getD` with default `"undefined"` captures that. -/
def formatBytes (bytes : Nat) : FormattedSize :=
  if bytes = 0 then ⟨0, "Bytes"⟩
  else
    let i := formatBytesIndex bytes
    ⟨(round ((bytes : ℚ) / (1024 : ℚ) ^ i * 100) : ℚ) / 100,
     byteSizes.getD i "undefined"⟩

/-- The network environment a single `fetch(url)` call observes:
`ok`/`status` from the response; `total` is the parsed `content-length`
(`0` when the header is missing or unusable, exactly the code's
`contentLength ? parseInt(contentLength, 10) : 0`); `bodyPresent` is
`response.body !== null`; `chunks` are the buffers successive
`reader.read()` calls deliver, in order; `aborts` means the read after
the last delivered chunk rejects instead of reporting `done`. -/
structure NetEnv where
  ok : Bool
  status : Nat
  total : Nat
  bodyPresent : Bool
  chunks : List Bytes
  aborts : Bool
deriving Repr, DecidableEq

/-- The failures `downloadAndCacheModel` can reject with. -/
inductive FetchError where
  /-- `Failed to download model: status` thrown on `!response.ok`. -/
  | httpError (status : Nat)
  /-- `Response body is null`. -/
  | nullBody
  /-- the mid-stream `reader.read()` rejection propagating out of the loop. -/
  | streamError
  /-- the un-awaited `get`-request rejection propagating out of `getCachedModel`. -/
  | storageReadError
deriving Repr, DecidableEq

/-- State of the `while (true)` read loop: the `chunks` array, the
`received` counter, and the list of values passed to `onProgress` so far. -/
structure ReadAcc where
  chunks : List Bytes
  received : Nat
  progress : List ℚ
deriving Repr, DecidableEq

/-- The read loop body: push the chunk, add its length to `received`,
and, when a callback was supplied and `total > 0`, invoke it with
`(received / total) * 100`. -/
def readLoop (hasCb : Bool) (total : Nat) : List Bytes → ReadAcc → ReadAcc
  | [], acc => acc
  | v :: rest, acc =>
    let received := acc.received + v.length
    let progress :=
      if hasCb = true ∧ 0 < total then
        acc.progress ++ [((received : ℚ) / (total : ℚ)) * 100]
      else acc.progress
    readLoop hasCb total rest ⟨acc.chunks ++ [v], received, progress⟩

/-- `view.set(chunk, position)`: overwrite `chunk.length` bytes of `dest`
starting at offset `pos`. -/
def writeAt (dest : Bytes) (chunk : Bytes) (pos : Nat) : Bytes :=
  dest.take pos ++ chunk ++ dest.drop (pos + chunk.length)

/-- The `for (const chunk of chunks)` copy loop advancing `position`. -/
def combineLoop : List Bytes → Bytes → Nat → Bytes
  | [], dest, _ => dest
  | c :: cs, dest, pos => combineLoop cs (writeAt dest c pos) (pos + c.length)

/-- Chunk reassembly: allocate `new ArrayBuffer(received)` (zero-filled)
once, then copy every chunk at its running offset. -/
def combineChunks (chunks : List Bytes) (received : Nat) : Bytes :=
  combineLoop chunks (List.replicate received 0) 0

/-- The outcome of one `downloadAndCacheModel` call: its return value or
rejection, the store contents afterwards, whether `fetch` was issued,
and the arguments passed to `onProgress`, in order. -/
structure FetchResult where
  result : Except FetchError Bytes
  store : StoreState
  fetched : Bool
  progress : List ℚ
deriving Repr

/-- `downloadAndCacheModel(url, onProgress?)`.  The cache probe
(`await getCachedModel(url)`) is not wrapped in `try`, so its rejection
propagates; a (truthy) hit returns the cached buffer with no `fetch`.
On a miss: `fetch`, fail on `!response.ok` with the status, fail on a
null body, run the read loop (progress per chunk), fail on a mid-stream
abort, reassemble with `combineChunks`, then `try { await cacheModel }`
— a caching failure is caught (`console.warn`) and the buffer is
returned regardless. -/
def downloadAndCacheModel (senv : StorageEnv) (net : NetEnv) (now : Nat)
    (hasCb : Bool) (s : StoreState) (url : String) : FetchResult :=
  match getCachedModel senv s url with
  | Except.error _ => ⟨Except.error FetchError.storageReadError, s, false, []⟩
  | Except.ok (some data) => ⟨Except.ok data, s, false, []⟩
  | Except.ok none =>
    if net.ok then
      if net.bodyPresent then
        let acc := readLoop hasCb net.total net.chunks ⟨[], 0, []⟩
        if net.aborts then
          ⟨Except.error FetchError.streamError, s, true, acc.progress⟩
        else
          let buf := combineChunks acc.chunks acc.received
          match cacheModel senv s url buf now with
          | Except.ok s2 => ⟨Except.ok buf, s2, true, acc.progress⟩
          | Except.error _ => ⟨Except.ok buf, s, true, acc.progress⟩
      else ⟨Except.error FetchError.nullBody, s, true, []⟩
    else ⟨Except.error (FetchError.httpError net.status), s, true, []⟩

/-- One cache-mutating operation of the management surface. -/
inductive CacheOp where
  | put (url : String) (data : Bytes) (now : Nat)
  | deleteOne (url : String)
  | deleteAll
deriving Repr, DecidableEq

/-- Apply one operation; a rejected operation leaves the store unchanged
(the aborted IndexedDB transaction rolls back). -/
def applyOp (env : StorageEnv) (s : StoreState) : CacheOp → StoreState
  | CacheOp.put url data now => ((cacheModel env s url data now).toOption).getD s
  | CacheOp.deleteOne url => ((clearCachedModel env s url).toOption).getD s
  | CacheOp.deleteAll => ((clearAllCache env s).toOption).getD s

/-- Apply a sequence of operations starting from a store state. -/
def applyOps (env : StorageEnv) (s : StoreState) (ops : List CacheOp) : StoreState :=
  ops.foldl (applyOp env) s

/-- Total byte count of a chunk list (the final value of `received`). -/
def sumLens (chunks : List Bytes) : Nat := (chunks.map List.length).sum

/-- The percentages emitted for a chunk list, starting from a running
byte count `base`: one entry per chunk, `(cumulative / total) * 100`. -/
def prefixPercents (total : Nat) : Nat → List Bytes → List ℚ
  | _, [] => []
  | base, c :: cs =>
    (((base + c.length : Nat) : ℚ) / (total : ℚ)) * 100 ::
      prefixPercents total (base + c.length) cs

lemma sumLens_cons (c : Bytes) (cs : List Bytes) :
    sumLens (c :: cs) = c.length + sumLens cs := by
  simp [sumLens]

/-- Closed form of the read loop: it appends the delivered chunks, adds
their total length to `received`, and appends one percentage per chunk
exactly when a callback was supplied and a total was advertised. -/
lemma readLoop_eq (hasCb : Bool) (total : Nat) :
    ∀ (chunks : List Bytes) (acc : ReadAcc),
      readLoop hasCb total chunks acc =
        ⟨acc.chunks ++ chunks, acc.received + sumLens chunks,
         acc.progress ++
           (if hasCb = true ∧ 0 < total then
              prefixPercents total acc.received chunks
            else [])⟩ := by
  intro chunks
  induction chunks with
  | nil =>
    intro acc
    simp [readLoop, sumLens, prefixPercents]
  | cons v rest ih =>
    intro acc
    simp only [readLoop]
    rw [ih]
    simp only [ReadAcc.mk.injEq]
    by_cases h : hasCb = true ∧ 0 < total
    · simp only [h, if_true, prefixPercents]
      refine ⟨by simp, by rw [sumLens_cons]; omega, by simp⟩
    · simp only [h, if_false]
      refine ⟨by simp, by rw [sumLens_cons]; omega, by simp⟩

lemma writeAt_length (dest chunk : Bytes) (pos : Nat)
    (h : pos + chunk.length ≤ dest.length) :
    (writeAt dest chunk pos).length = dest.length := by
  simp [writeAt]
  omega

/-- The copy loop fills the tail of the destination (past `pos`) with the
concatenation of the chunks, provided the destination was sized exactly. -/
lemma combineLoop_eq :
    ∀ (chunks : List Bytes) (dest : Bytes) (pos : Nat),
      dest.length = pos + sumLens chunks →
      combineLoop chunks dest pos = dest.take pos ++ chunks.flatten := by
  intro chunks
  induction chunks with
  | nil =>
    intro dest pos h
    have hle : dest.length ≤ pos := by simp [sumLens] at h; omega
    simp [combineLoop, List.take_of_length_le hle]
  | cons c cs ih =>
    intro dest pos h
    rw [sumLens_cons] at h
    have hfit : pos + c.length ≤ dest.length := by omega
    rw [combineLoop, ih (writeAt dest c pos) (pos + c.length)
      (by rw [writeAt_length dest c pos hfit]; omega)]
    have htake : (writeAt dest c pos).take (pos + c.length) =
        dest.take pos ++ c := by
      have hlen : (dest.take pos ++ c).length = pos + c.length := by
        simp; omega
      calc (writeAt dest c pos).take (pos + c.length)
          = ((dest.take pos ++ c) ++ dest.drop (pos + c.length)).take
              ((dest.take pos ++ c).length) := by
            rw [hlen]; simp [writeAt]
        _ = dest.take pos ++ c := List.take_left _ _
    rw [htake]
    simp

/-- Reassembly is byte-exact: with the destination allocated at exactly
the received total, the copy loop reproduces the concatenation. -/
lemma combineChunks_join (chunks : List Bytes) :
    combineChunks chunks (sumLens chunks) = chunks.flatten := by
  rw [combineChunks, combineLoop_eq chunks _ 0 (by simp)]
  simp

lemma length_flatten_eq_sumLens (chunks : List Bytes) :
    chunks.flatten.length = sumLens chunks := by
  induction chunks with
  | nil => simp [sumLens]
  | cons c cs ih => simp [sumLens_cons, ih]

lemma find?_append_of_none {p : CachedModel → Bool} :
    ∀ {l l' : List CachedModel}, l.find? p = none →
      (l ++ l').find? p = l'.find? p := by
  intro l
  induction l with
  | nil => intro l' _; simp
  | cons m rest ih =>
    intro l' h
    rw [List.find?_cons] at h
    cases hp : p m with
    | true => simp [hp] at h
    | false =>
      rw [List.cons_append, List.find?_cons, hp]
      exact ih (by simpa [hp] using h)

lemma find?_filter_ne (s : StoreState) (url : String) :
    (s.filter (fun m => m.url != url)).find? (fun m => m.url == url) = none := by
  rw [List.find?_eq_none]
  intro m hm
  have := List.of_mem_filter hm
  simp only [bne_iff_ne, ne_eq] at this
  simp [this]

/-- After an upsert, looking up the written key finds exactly the new record. -/
lemma lookupModel_upsert (s : StoreState) (url : String) (data : Bytes) (now : Nat) :
    lookupModel (upsert s url data now) url = some ⟨url, data, now, data.length⟩ := by
  unfold lookupModel upsert
  rw [find?_append_of_none (find?_filter_ne s url)]
  simp

/-- Percentages with a fixed total are monotone in the byte count
(`x / 0 = 0` in ℚ makes the degenerate total trivial). -/
lemma percent_mono (total : Nat) {a b : Nat} (h : a ≤ b) :
    ((a : Nat) : ℚ) / (total : ℚ) * 100 ≤ ((b : Nat) : ℚ) / (total : ℚ) * 100 := by
  rcases Nat.eq_zero_or_pos total with h0 | hpos
  · simp [h0]
  · have hc : (0 : ℚ) < (total : ℚ) := by exact_mod_cast hpos
    have hab : ((a : Nat) : ℚ) ≤ ((b : Nat) : ℚ) := by exact_mod_cast h
    have := (div_le_div_iff_of_pos_right hc).mpr hab
    nlinarith

/-- Successive emitted percentages are non-decreasing. -/
lemma prefixPercents_chain (total : Nat) :
    ∀ (chunks : List Bytes) (base : Nat),
      List.Chain' (· ≤ ·) (prefixPercents total base chunks) := by
  intro chunks
  induction chunks with
  | nil => intro base; simp [prefixPercents]
  | cons c cs ih =>
    intro base
    rw [prefixPercents, List.chain'_cons']
    refine ⟨?_, ih (base + c.length)⟩
    intro q hq
    cases cs with
    | nil => simp [prefixPercents] at hq
    | cons c2 cs2 =>
      simp only [prefixPercents, List.head?_cons, Option.mem_def,
        Option.some.injEq] at hq
      rw [← hq]
      exact percent_mono total (by omega)

/-- The last emitted percentage is `(grand total received / total) * 100`. -/
lemma prefixPercents_getLast (total : Nat) :
    ∀ (chunks : List Bytes) (base : Nat), chunks ≠ [] →
      (prefixPercents total base chunks).getLast? =
        some ((((base + sumLens chunks : Nat)) : ℚ) / (total : ℚ) * 100) := by
  intro chunks
  induction chunks with
  | nil => intro base h; exact absurd rfl h
  | cons c cs ih =>
    intro base _
    cases cs with
    | nil =>
      simp [prefixPercents, sumLens]
    | cons c2 cs2 =>
      have h1 : prefixPercents total base (c :: c2 :: cs2) =
          (((base + c.length : Nat) : ℚ) / (total : ℚ)) * 100 ::
            prefixPercents total (base + c.length) (c2 :: cs2) := rfl
      have h2 : prefixPercents total (base + c.length) (c2 :: cs2) =
          (((base + c.length + c2.length : Nat) : ℚ) / (total : ℚ)) * 100 ::
            prefixPercents total (base + c.length + c2.length) cs2 := rfl
      rw [h1, h2, List.getLast?_cons_cons, ← h2, ih (base + c.length) (by simp)]
      have harith : base + c.length + sumLens (c2 :: cs2) =
          base + sumLens (c :: c2 :: cs2) := by
        rw [sumLens_cons (c := c)]; omega
      rw [harith]

lemma foldl_add_size (infos : List CacheInfo) :
    ∀ (c : Nat), infos.foldl (fun total info => total + info.size) c =
      c + (infos.map CacheInfo.size).sum := by
  induction infos with
  | nil => intro c; simp
  | cons i rest ih =>
    intro c
    simp only [List.foldl_cons, List.map_cons, List.sum_cons, ih]
    omega

/-- Every record in the store has `size` equal to its data's byte length. -/
def SizeInv (s : StoreState) : Prop := ∀ m ∈ s, m.size = m.data.length

lemma sizeInv_upsert (s : StoreState) (url : String) (data : Bytes) (now : Nat)
    (h : SizeInv s) : SizeInv (upsert s url data now) := by
  intro m hm
  rw [upsert] at hm
  rcases List.mem_append.mp hm with hm | hm
  · exact h m (List.mem_of_mem_filter hm)
  · rw [List.mem_singleton.mp hm]

lemma sizeInv_applyOp (env : StorageEnv) (s : StoreState) (op : CacheOp)
    (h : SizeInv s) : SizeInv (applyOp env s op) := by
  cases op with
  | put url data now =>
    unfold applyOp cacheModel
    by_cases ho : env.openOk
    · by_cases hp : env.putOk
      · simpa [ho, hp, Except.toOption] using sizeInv_upsert s url data now h
      · simpa [ho, hp, Except.toOption] using h
    · simpa [ho, Except.toOption] using h
  | deleteOne url =>
    unfold applyOp clearCachedModel
    by_cases ho : env.openOk
    · by_cases hd : env.deleteOk
      · simp only [ho, hd, if_true, Except.toOption, Option.getD]
        intro m hm
        exact h m (List.mem_of_mem_filter hm)
      · simpa [ho, hd, Except.toOption] using h
    · simpa [ho, Except.toOption] using h
  | deleteAll =>
    unfold applyOp clearAllCache
    by_cases ho : env.openOk
    · by_cases hc : env.clearOk
      · simp only [ho, hc, if_true, Except.toOption, Option.getD]
        intro m hm
        simp at hm
      · simpa [ho, hc, Except.toOption] using h
    · simpa [ho, Except.toOption] using h

lemma sizeInv_applyOps (env : StorageEnv) (ops : List CacheOp) :
    ∀ (s : StoreState), SizeInv s → SizeInv (applyOps env s ops) := by
  induction ops with
  | nil => intro s h; exact h
  | cons op rest ih =>
    intro s h
    exact ih (applyOp env s op) (sizeInv_applyOp env s op h)

/-- Cache-hit path: with a readable store containing the key, the call
returns the stored bytes, leaves the store alone, performs no network
request and reports no progress. -/
lemma fetch_hit (senv : StorageEnv) (net : NetEnv) (now : Nat) (hasCb : Bool)
    (s : StoreState) (url : String) (m : CachedModel)
    (ho : senv.openOk = true) (hr : senv.readOk = true)
    (hm : lookupModel s url = some m) :
    downloadAndCacheModel senv net now hasCb s url =
      ⟨Except.ok m.data, s, false, []⟩ := by
  have hget : getCachedModel senv s url = Except.ok (some m.data) := by
    simp [getCachedModel, ho, hr, hm]
  simp only [downloadAndCacheModel, hget]

/-- Cache-miss path with a fully successful download: the call returns
the reassembled buffer, stores it when the `put` succeeds (and leaves
the store untouched otherwise), and emits the canonical percentage list. -/
lemma fetch_miss_success (senv : StorageEnv) (net : NetEnv) (now : Nat)
    (hasCb : Bool) (s : StoreState) (url : String)
    (ho : senv.openOk = true) (hr : senv.readOk = true)
    (hm : lookupModel s url = none)
    (hok : net.ok = true) (hb : net.bodyPresent = true) (ha : net.aborts = false) :
    downloadAndCacheModel senv net now hasCb s url =
      ⟨Except.ok (combineChunks net.chunks (sumLens net.chunks)),
       if senv.putOk = true then
         upsert s url (combineChunks net.chunks (sumLens net.chunks)) now
       else s,
       true,
       if hasCb = true ∧ 0 < net.total then
         prefixPercents net.total 0 net.chunks
       else []⟩ := by
  have hget : getCachedModel senv s url = Except.ok none := by
    simp [getCachedModel, ho, hr, hm]
  simp only [downloadAndCacheModel, hget, hok, hb, ha, if_true, if_false,
    Bool.false_eq_true, readLoop_eq]
  simp only [List.nil_append, Nat.zero_add]
  by_cases hp : senv.putOk = true
  · simp [cacheModel, ho, hp]
  · simp [cacheModel, ho, hp]

/-- Cache-miss path with an HTTP failure: the error carries the status,
nothing is stored, no progress is reported. -/
lemma fetch_miss_http_error (senv : StorageEnv) (net : NetEnv) (now : Nat)
    (hasCb : Bool) (s : StoreState) (url : String)
    (ho : senv.openOk = true) (hr : senv.readOk = true)
    (hm : lookupModel s url = none) (hok : net.ok = false) :
    downloadAndCacheModel senv net now hasCb s url =
      ⟨Except.error (FetchError.httpError net.status), s, true, []⟩ := by
  have hget : getCachedModel senv s url = Except.ok none := by
    simp [getCachedModel, ho, hr, hm]
  simp [downloadAndCacheModel, hget, hok]

/-- Cache-miss path with a mid-stream abort: the stream error is raised,
nothing is stored, and only the percentages for the chunks delivered
before the abort were reported. -/
lemma fetch_miss_abort (senv : StorageEnv) (net : NetEnv) (now : Nat)
    (hasCb : Bool) (s : StoreState) (url : String)
    (ho : senv.openOk = true) (hr : senv.readOk = true)
    (hm : lookupModel s url = none)
    (hok : net.ok = true) (hb : net.bodyPresent = true) (ha : net.aborts = true) :
    downloadAndCacheModel senv net now hasCb s url =
      ⟨Except.error FetchError.streamError, s, true,
       if hasCb = true ∧ 0 < net.total then
         prefixPercents net.total 0 net.chunks
       else []⟩ := by
  have hget : getCachedModel senv s url = Except.ok none := by
    simp [getCachedModel, ho, hr, hm]
  simp only [downloadAndCacheModel, hget, hok, hb, ha, if_true, readLoop_eq]
  simp

/-- A storage environment in which every IndexedDB request succeeds. -/
def allOkStorage : StorageEnv := ⟨true, true, true, true, true⟩

/-- A storage environment whose `open` succeeds but whose read requests
(`get` / `getAll`) reject. -/
def readFailStorage : StorageEnv := ⟨true, false, true, true, true⟩

/-- The spec's concrete scenario: a 10-byte payload delivered in chunks
of 4, 4 and 2 bytes with advertised total length 10. -/
def demoNet : NetEnv := ⟨true, 200, 10, true, [[1,2,3,4],[5,6,7,8],[9,10]], false⟩

/-- An unreachable network location: the request fails outright. -/
def deadNet : NetEnv := ⟨false, 404, 0, false, [], false⟩

/-- **C1.** Once an identity has been fetched and stored, a later
`downloadAndCacheModel` for it — against any network environment, even
an unreachable one — returns exactly the stored bytes, leaves the store
unchanged, never enters the fetch/download path, and never invokes
`onProgress`. -/
theorem idempotent_cache_hit
    (senv1 senv2 : StorageEnv) (net1 net2 : NetEnv) (now1 now2 : Nat)
    (cb1 cb2 : Bool) (s : StoreState) (url : String)
    (ho1 : senv1.openOk = true) (hr1 : senv1.readOk = true)
    (hp1 : senv1.putOk = true)
    (hm : lookupModel s url = none)
    (hok : net1.ok = true) (hb : net1.bodyPresent = true)
    (ha : net1.aborts = false)
    (ho2 : senv2.openOk = true) (hr2 : senv2.readOk = true) :
    ∃ bytes : Bytes,
      (downloadAndCacheModel senv1 net1 now1 cb1 s url).result =
        Except.ok bytes ∧
      downloadAndCacheModel senv2 net2 now2 cb2
          (downloadAndCacheModel senv1 net1 now1 cb1 s url).store url =
        ⟨Except.ok bytes,
         (downloadAndCacheModel senv1 net1 now1 cb1 s url).store,
         false, []⟩ := by
  refine ⟨combineChunks net1.chunks (sumLens net1.chunks), ?_, ?_⟩
  · rw [fetch_miss_success senv1 net1 now1 cb1 s url ho1 hr1 hm hok hb ha]
  · rw [fetch_miss_success senv1 net1 now1 cb1 s url ho1 hr1 hm hok hb ha]
    simp only [hp1, if_true]
    exact fetch_hit senv2 net2 now2 cb2 _ url
      ⟨url, combineChunks net1.chunks (sumLens net1.chunks), now1,
        (combineChunks net1.chunks (sumLens net1.chunks)).length⟩
      ho2 hr2 (lookupModel_upsert s url _ now1)

theorem idempotent_cache_hit_witness :
    lookupModel [] "m" = none ∧
    ∃ bytes : Bytes,
      (downloadAndCacheModel allOkStorage demoNet 7 true [] "m").result =
        Except.ok bytes ∧
      downloadAndCacheModel allOkStorage deadNet 8 false
          (downloadAndCacheModel allOkStorage demoNet 7 true [] "m").store "m" =
        ⟨Except.ok bytes,
         (downloadAndCacheModel allOkStorage demoNet 7 true [] "m").store,
         false, []⟩ :=
  ⟨rfl, idempotent_cache_hit allOkStorage allOkStorage demoNet deadNet 7 8
    true false [] "m" rfl rfl rfl rfl rfl rfl rfl rfl rfl⟩

/-- **C2.** On a cache miss the returned buffer is the single-allocation
reassembly of the received chunks, and that reassembly is byte-exact:
it equals the in-order concatenation of all chunks and its length is the
total received byte count. -/
theorem byte_exact_reassembly
    (senv : StorageEnv) (net : NetEnv) (now : Nat) (hasCb : Bool)
    (s : StoreState) (url : String)
    (ho : senv.openOk = true) (hr : senv.readOk = true)
    (hm : lookupModel s url = none)
    (hok : net.ok = true) (hb : net.bodyPresent = true)
    (ha : net.aborts = false) :
    (downloadAndCacheModel senv net now hasCb s url).result =
      Except.ok (combineChunks net.chunks (sumLens net.chunks)) ∧
    combineChunks net.chunks (sumLens net.chunks) = net.chunks.flatten ∧
    (combineChunks net.chunks (sumLens net.chunks)).length =
      sumLens net.chunks := by
  refine ⟨?_, combineChunks_join net.chunks, ?_⟩
  · rw [fetch_miss_success senv net now hasCb s url ho hr hm hok hb ha]
  · rw [combineChunks_join]
    exact length_flatten_eq_sumLens net.chunks

theorem byte_exact_reassembly_witness :
    lookupModel [] "m" = none ∧
    ((downloadAndCacheModel allOkStorage demoNet 0 false [] "m").result =
      Except.ok (combineChunks demoNet.chunks (sumLens demoNet.chunks)) ∧
    combineChunks demoNet.chunks (sumLens demoNet.chunks) =
      demoNet.chunks.flatten ∧
    (combineChunks demoNet.chunks (sumLens demoNet.chunks)).length =
      sumLens demoNet.chunks) :=
  ⟨rfl, byte_exact_reassembly allOkStorage demoNet 0 false [] "m"
    rfl rfl rfl rfl rfl rfl⟩

/-- **C3.** If the download fails — HTTP failure status (raised
immediately with the status, no retry) or mid-stream abort — the failure
propagates, the store is unchanged, and the identity stays uncached. -/
theorem no_cache_on_download_failure
    (senv : StorageEnv) (net : NetEnv) (now : Nat) (hasCb : Bool)
    (s : StoreState) (url : String)
    (ho : senv.openOk = true) (hr : senv.readOk = true)
    (hm : lookupModel s url = none)
    (hfail : net.ok = false ∨ (net.bodyPresent = true ∧ net.aborts = true)) :
    (downloadAndCacheModel senv net now hasCb s url).result =
      Except.error (if net.ok then FetchError.streamError
                    else FetchError.httpError net.status) ∧
    (downloadAndCacheModel senv net now hasCb s url).store = s ∧
    isModelCached senv
      (downloadAndCacheModel senv net now hasCb s url).store url = false := by
  have hcached : isModelCached senv s url = false := by
    simp [isModelCached, getCachedModel, ho, hr, hm]
  cases hq : net.ok with
  | false =>
    rw [fetch_miss_http_error senv net now hasCb s url ho hr hm hq]
    simp [hq, hcached]
  | true =>
    rcases hfail with h | ⟨hb, ha⟩
    · rw [hq] at h; exact absurd h (by simp)
    · rw [fetch_miss_abort senv net now hasCb s url ho hr hm hq hb ha]
      simp [hq, hcached]

/-- A network that aborts mid-stream after delivering one 4-byte chunk. -/
def abortNet : NetEnv := ⟨true, 200, 10, true, [[1,2,3,4]], true⟩

theorem no_cache_on_download_failure_witness :
    (lookupModel [] "m" = none ∧
      (abortNet.bodyPresent = true ∧ abortNet.aborts = true)) ∧
    ((downloadAndCacheModel allOkStorage abortNet 0 true [] "m").result =
      Except.error (if abortNet.ok then FetchError.streamError
                    else FetchError.httpError abortNet.status) ∧
    (downloadAndCacheModel allOkStorage abortNet 0 true [] "m").store = [] ∧
    isModelCached allOkStorage
      (downloadAndCacheModel allOkStorage abortNet 0 true [] "m").store "m" =
        false) :=
  ⟨⟨rfl, rfl, rfl⟩, no_cache_on_download_failure allOkStorage abortNet 0 true
    [] "m" rfl rfl rfl (Or.inr ⟨rfl, rfl⟩)⟩

/-- **C4.** If the download succeeds but the store `put` fails, the
caught write failure never propagates: the call still returns the
complete downloaded bytes, and the store is left unchanged. -/
theorem put_failure_still_returns_bytes
    (senv : StorageEnv) (net : NetEnv) (now : Nat) (hasCb : Bool)
    (s : StoreState) (url : String)
    (ho : senv.openOk = true) (hr : senv.readOk = true)
    (hp : senv.putOk = false)
    (hm : lookupModel s url = none)
    (hok : net.ok = true) (hb : net.bodyPresent = true)
    (ha : net.aborts = false) :
    (downloadAndCacheModel senv net now hasCb s url).result =
      Except.ok net.chunks.flatten ∧
    (downloadAndCacheModel senv net now hasCb s url).store = s := by
  rw [fetch_miss_success senv net now hasCb s url ho hr hm hok hb ha]
  simp [hp, combineChunks_join]

/-- A storage environment whose `put` requests always reject. -/
def putFailStorage : StorageEnv := ⟨true, true, false, true, true⟩

theorem put_failure_still_returns_bytes_witness :
    (putFailStorage.putOk = false ∧ lookupModel [] "m" = none) ∧
    ((downloadAndCacheModel putFailStorage demoNet 0 false [] "m").result =
      Except.ok demoNet.chunks.flatten ∧
    (downloadAndCacheModel putFailStorage demoNet 0 false [] "m").store = []) :=
  ⟨⟨rfl, rfl⟩, put_failure_still_returns_bytes putFailStorage demoNet 0 false
    [] "m" rfl rfl rfl rfl rfl rfl rfl⟩

/-- **C5 counterexample.** The claim says *every* storage failure leaves
the download path intact.  But when the store opens and the `get`
request rejects, the un-awaited promise escapes `getCachedModel`'s
`try`/`catch` and the whole fetch rejects before any network activity —
even though the network would have delivered the bytes. -/
theorem storage_read_failure_aborts_fetch_cex :
    (downloadAndCacheModel readFailStorage demoNet 0 false [] "m").result =
      Except.error FetchError.storageReadError ∧
    (downloadAndCacheModel readFailStorage demoNet 0 false [] "m").fetched =
      false := ⟨rfl, rfl⟩

/-- **C5 amended.** A failure to *open* the durable store degrades the
fetch to network-only operation: the download proceeds, the complete
bytes are returned, and the store is left unchanged.  (A store
read-request rejection instead propagates and aborts the fetch.) -/
theorem open_failure_degrades_to_network_only
    (senv : StorageEnv) (net : NetEnv) (now : Nat) (hasCb : Bool)
    (s : StoreState) (url : String)
    (ho : senv.openOk = false)
    (hok : net.ok = true) (hb : net.bodyPresent = true)
    (ha : net.aborts = false) :
    (downloadAndCacheModel senv net now hasCb s url).result =
      Except.ok net.chunks.flatten ∧
    (downloadAndCacheModel senv net now hasCb s url).fetched = true ∧
    (downloadAndCacheModel senv net now hasCb s url).store = s := by
  have hget : getCachedModel senv s url = Except.ok none := by
    simp [getCachedModel, ho]
  have hcm : ∀ data nowv, cacheModel senv s url data nowv = Except.error () := by
    intro data nowv
    simp [cacheModel, ho]
  simp only [downloadAndCacheModel, hget, hok, hb, ha, if_true,
    Bool.false_eq_true, if_false, readLoop_eq, hcm]
  simp [combineChunks_join]

/-- A storage environment where the persistence subsystem cannot be
opened at all. -/
def openFailStorage : StorageEnv := ⟨false, true, true, true, true⟩

theorem open_failure_degrades_to_network_only_witness :
    (openFailStorage.openOk = false) ∧
    ((downloadAndCacheModel openFailStorage demoNet 0 false [] "m").result =
      Except.ok demoNet.chunks.flatten ∧
    (downloadAndCacheModel openFailStorage demoNet 0 false [] "m").fetched =
      true ∧
    (downloadAndCacheModel openFailStorage demoNet 0 false [] "m").store =
      []) :=
  ⟨rfl, open_failure_degrades_to_network_only openFailStorage demoNet 0 false
    [] "m" rfl rfl rfl rfl⟩

/-- **C6.** During a download the progress callback is invoked once per
received chunk with exactly `(receivedBytes / totalBytes) * 100`, when a
callback was supplied and the transport advertised a (positive) total;
with no advertised total the callback is never invoked. -/
theorem progress_exact_formula
    (senv : StorageEnv) (net : NetEnv) (now : Nat) (hasCb : Bool)
    (s : StoreState) (url : String)
    (ho : senv.openOk = true) (hr : senv.readOk = true)
    (hm : lookupModel s url = none)
    (hok : net.ok = true) (hb : net.bodyPresent = true) :
    (downloadAndCacheModel senv net now hasCb s url).progress =
      if hasCb = true ∧ 0 < net.total then
        prefixPercents net.total 0 net.chunks
      else [] := by
  cases ha : net.aborts with
  | true =>
    rw [fetch_miss_abort senv net now hasCb s url ho hr hm hok hb ha]
  | false =>
    rw [fetch_miss_success senv net now hasCb s url ho hr hm hok hb ha]

theorem progress_exact_formula_witness :
    lookupModel [] "m" = none ∧
    (downloadAndCacheModel allOkStorage demoNet 0 true [] "m").progress =
      (if true = true ∧ 0 < demoNet.total then
        prefixPercents demoNet.total 0 demoNet.chunks
       else []) :=
  ⟨rfl, progress_exact_formula allOkStorage demoNet 0 true [] "m"
    rfl rfl rfl rfl rfl⟩

/-- A transport that advertises 10 bytes but delivers only 3 before
ending the stream normally: the advertised and received totals disagree. -/
def lyingNet : NetEnv := ⟨true, 200, 10, true, [[1,2,3]], false⟩

/-- **C7 counterexample.** With a total length advertised (10), the
download completes after receiving 3 bytes, and the final (only)
`onProgress` invocation reports 30 — not `receivedBytes == totalBytes`
(100%) as the claim states. -/
theorem progress_final_not_total_cex :
    (downloadAndCacheModel allOkStorage lyingNet 0 true [] "m").progress =
      [(30 : ℚ)] ∧
    (30 : ℚ) ≠ 100 := by
  constructor
  · rw [fetch_miss_success allOkStorage lyingNet 0 true [] "m"
      rfl rfl rfl rfl rfl rfl]
    simp only [if_pos (by constructor <;> norm_num [lyingNet] :
      true = true ∧ 0 < lyingNet.total)]
    show prefixPercents 10 0 [[1,2,3]] = [(30 : ℚ)]
    simp [prefixPercents]
    norm_num
  · norm_num

/-- **C7 amended.** Successive `onProgress` invocations within one
download are always non-decreasing; and the final invocation reports
100% provided the advertised total equals the number of bytes actually
delivered (the code cannot enforce the advertised length, so a
mismatching `content-length` yields a final percentage other than 100). -/
theorem progress_monotone_and_final
    (senv : StorageEnv) (net : NetEnv) (now : Nat) (hasCb : Bool)
    (s : StoreState) (url : String)
    (ho : senv.openOk = true) (hr : senv.readOk = true)
    (hm : lookupModel s url = none)
    (hok : net.ok = true) (hb : net.bodyPresent = true) :
    List.Chain' (· ≤ ·)
      (downloadAndCacheModel senv net now hasCb s url).progress ∧
    (hasCb = true → 0 < net.total → net.total = sumLens net.chunks →
      net.chunks ≠ [] →
      (downloadAndCacheModel senv net now hasCb s url).progress.getLast? =
        some 100) := by
  have hprog : (downloadAndCacheModel senv net now hasCb s url).progress =
      if hasCb = true ∧ 0 < net.total then
        prefixPercents net.total 0 net.chunks
      else [] := by
    cases ha : net.aborts with
    | true => rw [fetch_miss_abort senv net now hasCb s url ho hr hm hok hb ha]
    | false =>
      rw [fetch_miss_success senv net now hasCb s url ho hr hm hok hb ha]
  rw [hprog]
  constructor
  · by_cases h : hasCb = true ∧ 0 < net.total
    · rw [if_pos h]
      exact prefixPercents_chain net.total net.chunks 0
    · rw [if_neg h]
      simp
  · intro hcb htot hadv hne
    rw [if_pos ⟨hcb, htot⟩, prefixPercents_getLast net.total net.chunks 0 hne]
    have hT : ((net.total : ℚ)) ≠ 0 := by
      exact_mod_cast Nat.pos_iff_ne_zero.mp htot
    rw [Nat.zero_add, ← hadv, div_self hT]
    norm_num

theorem progress_monotone_and_final_witness :
    (demoNet.total = sumLens demoNet.chunks ∧ demoNet.chunks ≠ []) ∧
    (List.Chain' (· ≤ ·)
      (downloadAndCacheModel allOkStorage demoNet 3 true [] "m").progress ∧
    (downloadAndCacheModel allOkStorage demoNet 3 true [] "m").progress.getLast? =
      some 100) := by
  have h := progress_monotone_and_final allOkStorage demoNet 3 true [] "m"
    rfl rfl rfl rfl rfl
  exact ⟨⟨rfl, by simp [demoNet]⟩, h.1, h.2 rfl (by norm_num [demoNet]) rfl
    (by simp [demoNet])⟩

/-- **C8.** After any sequence of `put` / `delete` / `deleteAll`
operations, `getCacheSize` equals the sum of the `size` fields of the
entries `getCacheInfo` returns, which in turn equals the sum of the
stored records' actual byte lengths: the size is recomputed from the
entries, never a lazy or stale counter. -/
theorem cache_size_aggregate_consistency
    (env : StorageEnv) (ops : List CacheOp)
    (ho : env.openOk = true) (hr : env.readOk = true) :
    ∃ infos : List CacheInfo,
      getCacheInfo env (applyOps env [] ops) = Except.ok infos ∧
      getCacheSize env (applyOps env [] ops) =
        (infos.map CacheInfo.size).sum ∧
      (infos.map CacheInfo.size).sum =
        ((applyOps env [] ops).map (fun m => m.data.length)).sum := by
  refine ⟨(applyOps env [] ops).map
      (fun m => ⟨m.url, m.timestamp, m.size⟩), ?_, ?_, ?_⟩
  · simp [getCacheInfo, ho, hr]
  · simp only [getCacheSize, getCacheInfo, ho, hr, if_true, foldl_add_size]
    omega
  · have hinv : SizeInv (applyOps env [] ops) :=
      sizeInv_applyOps env ops [] (by intro m hm; simp at hm)
    rw [List.map_map]
    exact congrArg List.sum (List.map_congr_left (fun m hm => hinv m hm))

theorem cache_size_aggregate_consistency_witness :
    ∃ infos : List CacheInfo,
      getCacheInfo allOkStorage
        (applyOps allOkStorage []
          [CacheOp.put "a" [1,2,3] 5, CacheOp.put "b" [4] 6,
           CacheOp.deleteOne "a"]) = Except.ok infos ∧
      getCacheSize allOkStorage
        (applyOps allOkStorage []
          [CacheOp.put "a" [1,2,3] 5, CacheOp.put "b" [4] 6,
           CacheOp.deleteOne "a"]) = (infos.map CacheInfo.size).sum ∧
      (infos.map CacheInfo.size).sum =
        ((applyOps allOkStorage []
          [CacheOp.put "a" [1,2,3] 5, CacheOp.put "b" [4] 6,
           CacheOp.deleteOne "a"]).map (fun m => m.data.length)).sum :=
  cache_size_aggregate_consistency allOkStorage
    [CacheOp.put "a" [1,2,3] 5, CacheOp.put "b" [4] 6,
     CacheOp.deleteOne "a"] rfl rfl

/-- **C9 counterexample.** `formatBytes` is not well-formed on every
non-negative byte count: the `sizes` array has only four entries, so at
one pebibyte (`1024 ^ 5` bytes) the exponent is 5, the JavaScript index
`sizes[5]` is `undefined`, and the rendered unit is the malformed
`"undefined"` — not one of `Bytes`/`KB`/`MB`/`GB`. -/
theorem formatBytes_unit_overflow_cex :
    (formatBytes (1024 ^ 5)).unit = "undefined" ∧
    "undefined" ∉ ["Bytes", "KB", "MB", "GB"] := by
  constructor
  · have hne : ¬ ((1024 : Nat) ^ 5 = 0) := by positivity
    have hlog : formatBytesIndex (1024 ^ 5) = 5 := by
      rw [formatBytesIndex]
      exact Nat.log_pow (by norm_num) 5
    rw [formatBytes, if_neg hne]
    show byteSizes.getD (formatBytesIndex (1024 ^ 5)) "undefined" = "undefined"
    rw [hlog]
    rfl
  · decide

/-- **C9 amended.** `formatBytes` is total and pure, returns `0 Bytes`
at zero, and for every byte count below `1024 ^ 4` (one tebibyte) it
returns a number with at most two fractional digits together with a
valid unit among `Bytes`/`KB`/`MB`/`GB`; at or above `1024 ^ 4` the unit
degenerates to the malformed `"undefined"`. -/
theorem formatBytes_valid_below_terabyte
    (n : Nat) (h : n < 1024 ^ 4) :
    (formatBytes n).unit ∈ ["Bytes", "KB", "MB", "GB"] ∧
    (∃ m : ℤ, (formatBytes n).mantissa = (m : ℚ) / 100) ∧
    formatBytes 0 = ⟨0, "Bytes"⟩ := by
  refine ⟨?_, ?_, rfl⟩
  · by_cases h0 : n = 0
    · simp [formatBytes, h0]
    · have hlt : Nat.log 1024 n < 4 := Nat.log_lt_of_lt_pow h0 h
      rw [formatBytes, if_neg h0]
      have : formatBytesIndex n = 0 ∨ formatBytesIndex n = 1 ∨
          formatBytesIndex n = 2 ∨ formatBytesIndex n = 3 := by
        rw [formatBytesIndex]; omega
      rcases this with hi | hi | hi | hi <;> simp [hi, byteSizes]
  · by_cases h0 : n = 0
    · exact ⟨0, by simp [formatBytes, h0]⟩
    · rw [formatBytes, if_neg h0]
      exact ⟨round ((n : ℚ) / (1024 : ℚ) ^ formatBytesIndex n * 100), rfl⟩

theorem formatBytes_valid_below_terabyte_witness :
    12345678 < 1024 ^ 4 ∧
    ((formatBytes 12345678).unit ∈ ["Bytes", "KB", "MB", "GB"] ∧
    (∃ m : ℤ, (formatBytes 12345678).mantissa = (m : ℚ) / 100) ∧
    formatBytes 0 = ⟨0, "Bytes"⟩) :=
  ⟨by norm_num, formatBytes_valid_below_terabyte 12345678 (by norm_num)⟩

/-- **C10 counterexample.** `getCachedModel` does *not* map every
internal storage failure to `null`: when the store opens but the `get`
request rejects, the promise is returned from inside the `try` without
`await`, so the rejection escapes the `catch` and the caller observes a
rejection rather than `null`. -/
theorem getCachedModel_read_error_rejects_cex :
    getCachedModel readFailStorage [] "m" = Except.error () ∧
    ∀ r : Option Bytes,
      getCachedModel readFailStorage [] "m" ≠ Except.ok r := by
  refine ⟨rfl, ?_⟩
  intro r hcontra
  simp [getCachedModel, readFailStorage] at hcontra

/-- **C10 amended.** `isModelCached` never throws: every storage failure
is mapped to `false`.  `getCachedModel` maps a failure to *open* the
store to `null`, but a rejecting read request propagates to the caller
as a rejection. -/
theorem storage_failure_query_behaviour
    (env : StorageEnv) (s : StoreState) (url : String)
    (hfail : env.openOk = false ∨ env.readOk = false) :
    isModelCached env s url = false ∧
    (env.openOk = false → getCachedModel env s url = Except.ok none) ∧
    (env.openOk = true → env.readOk = false →
      getCachedModel env s url = Except.error ()) := by
  refine ⟨?_, ?_, ?_⟩
  · rcases hfail with h | h
    · simp [isModelCached, getCachedModel, h]
    · cases ho : env.openOk <;> simp [isModelCached, getCachedModel, ho, h]
  · intro h
    simp [getCachedModel, h]
  · intro ho hr
    simp [getCachedModel, ho, hr]

theorem storage_failure_query_behaviour_witness :
    (readFailStorage.openOk = false ∨ readFailStorage.readOk = false) ∧
    (isModelCached readFailStorage [⟨"m", [1,2], 0, 2⟩] "m" = false ∧
    (readFailStorage.openOk = false →
      getCachedModel readFailStorage [⟨"m", [1,2], 0, 2⟩] "m" =
        Except.ok none) ∧
    (readFailStorage.openOk = true → readFailStorage.readOk = false →
      getCachedModel readFailStorage [⟨"m", [1,2], 0, 2⟩] "m" =
        Except.error ())) :=
  ⟨Or.inr rfl, storage_failure_query_behaviour readFailStorage
    [⟨"m", [1,2], 0, 2⟩] "m" (Or.inr rfl)⟩

end ModelCache
